import Mathlib

set_option maxRecDepth 4000

/-!
Verification of the spreadsheet-to-file reconciliation engine of
src/sushichef.py (class MotherGooseClubChef, method
load_content_from_spreadsheet).  Strings are modelled as lists of
characters; the Python string operations used by the source (strip,
replace, lower, startswith, endswith, substring test) are embedded
below, and the per-cell resolution loop is embedded as a fold that
carries the mutable loop state (value, prefixes, resource_file).
-/

/-- Strings of the source are modelled as lists of characters. -/
abbrev Str := List Char

/-- Turn a Lean string literal into the character-list model. -/
def strOf (s : String) : Str := s.data

/-- ASCII lower-casing of one character, as Python str.lower acts on the
ASCII data appearing in this program. -/
def lowerChar (c : Char) : Char :=
  if 'A' ≤ c ∧ c ≤ 'Z' then Char.ofNat (c.toNat + 32) else c

/-- Python str.lower on the ASCII strings of this program. -/
def lower (s : Str) : Str := s.map lowerChar

/-- Python whitespace characters stripped by str.strip. -/
def isWS (c : Char) : Bool :=
  c == ' ' || c == '\t' || c == '\n' || c == '\r' || c == '\x0b' || c == '\x0c'

/-- Remove trailing whitespace (the right half of Python str.strip). -/
def dropTrailWS : Str → Str
  | [] => []
  | c :: rest =>
    match dropTrailWS rest with
    | [] => if isWS c then [] else [c]
    | r => c :: r

/-- Python str.strip: remove leading and trailing whitespace. -/
def strip (s : Str) : Str := dropTrailWS (s.dropWhile isWS)

/-- Python substring test (the `in` operator on strings): some suffix of
the text starts with the pattern. -/
def occursB (pat : Str) : Str → Bool
  | [] => pat.isEmpty
  | c :: rest => pat.isPrefixOf (c :: rest) || occursB pat rest

/-- Fuel-driven scan for Python str.replace with a nonempty pattern:
left-to-right, non-overlapping occurrences of the pattern are replaced.
The fuel starts at the length of the text, and every step consumes at
least one character, so the fuel never runs out on the initial call. -/
def replaceAllAux (pat rep : Str) : Nat → Str → Str
  | 0, s => s
  | _ + 1, [] => []
  | n + 1, c :: rest =>
    if pat.isPrefixOf (c :: rest) = true ∧ pat ≠ [] then
      rep ++ replaceAllAux pat rep n (rest.drop (pat.length - 1))
    else
      c :: replaceAllAux pat rep n rest

/-- Python str.replace for the nonempty patterns used by the source. -/
def replaceAll (pat rep s : Str) : Str := replaceAllAux pat rep s.length s

/-- The variant markers removed from the title, in source order
(sushichef.py line 150). -/
def markers : List Str :=
  [strOf "(Anim)", strOf "(Live)", strOf "(2D Anim)", strOf "(3D Anim)"]

/-- The marker-stripping pass of sushichef.py lines 150-151: for each
marker in order, remove every occurrence and strip whitespace. -/
def normalizeTitle (v : Str) : Str :=
  markers.foldl (fun acc m => strip (replaceAll m [] acc)) v

/-- The fallback substitution table of sushichef.py line 161. -/
def replacementTable : List (Str × Str) :=
  [(strOf ",", strOf ""),
   (strOf " Group", strOf ".Group"),
   (strOf " Noa", strOf ".Noa"),
   (strOf " Robert", strOf ".Robert"),
   (strOf " Caralyn", strOf ".Caralyn")]

/-- Case-insensitive direct test of sushichef.py line 158:
resource.lower().startswith(file_prefix.lower()). -/
def directMatch (fp r : Str) : Bool := (lower fp).isPrefixOf (lower r)

/-- The fallback test of sushichef.py lines 161-164: some entry of the
substitution table, applied to the candidate, is a case-insensitive
prefix of the resource.  In the source each hit assigns
resource_file = resource, so a single disjunctive test is equivalent. -/
def fallbackMatch (fp r : Str) : Bool :=
  replacementTable.any (fun pr => (lower (replaceAll pr.1 pr.2 fp)).isPrefixOf (lower r))

/-- The known-bad extension test of sushichef.py line 171:
found_file.lower().endswith('.mov'). -/
def movB (f : Str) : Bool := List.isSuffixOf (strOf ".mov") (lower f)

/-- One step of the resources loop (sushichef.py lines 156-164): a direct
match is appended to found_files, otherwise a fallback hit overwrites
resource_file unconditionally. -/
def scanStep (fp : Str) (acc : List Str × Option Str) (r : Str) : List Str × Option Str :=
  if directMatch fp r = true then (acc.1 ++ [r], acc.2)
  else if fallbackMatch fp r = true then (acc.1, some r)
  else acc

/-- The resources loop of sushichef.py lines 156-164, returning the
collected found_files and the possibly fallback-updated resource_file. -/
def scanResources (fp : Str) (pool : List Str) (rf : Option Str) : List Str × Option Str :=
  pool.foldl (scanStep fp) ([], rf)

/-- Python truthiness of the resource_file variable (None and the empty
string are falsy). -/
def pyFalsy : Option Str → Bool
  | none => true
  | some s => s.isEmpty

/-- One step of the found_files loop (sushichef.py lines 165-173): keep a
strictly shorter direct match unless it carries the .mov extension. -/
def selectStep (rf : Option Str) (f : Str) : Option Str :=
  if pyFalsy rf = true ∨ f.length < (rf.getD []).length then
    if movB f = true then rf else some f
  else rf

/-- The found_files loop of sushichef.py lines 165-173. -/
def selectShortest (found : List Str) (rf : Option Str) : Option Str :=
  found.foldl selectStep rf

/-- Resolution of one candidate against the pool: the resources loop
followed by the found_files loop (sushichef.py lines 155-173). -/
def resolveOne (fp : Str) (pool : List Str) (rf : Option Str) : Option Str :=
  let s := scanResources fp pool rf
  selectShortest s.1 s.2

/-- The loop-carried state of the per-cell candidate loop: the mutable
title variable value, the accumulated candidate list prefixes, and the
best-match accumulator resource_file. -/
structure RowState where
  value : Str
  prefixes : List Str
  rf : Option Str
deriving DecidableEq

/-- One iteration of the candidate loop (sushichef.py lines 141-173) for
token tok: skip live tokens while the working value still carries the
animation marker and symmetrically, otherwise strip the markers from the
working value, build the candidate, and run both matching loops. -/
def stepToken (pool : List Str) (st : RowState) (tok : Str) : RowState :=
  if occursB (strOf "(Anim)") st.value = true ∧ occursB (strOf "LIVE") tok = true then st
  else if occursB (strOf "(Live)") st.value = true ∧ occursB (strOf "ANIM") tok = true then st
  else
    let v := normalizeTitle st.value
    let fp := tok ++ strOf "." ++ v ++ strOf "."
    { value := v, prefixes := st.prefixes ++ [fp], rf := resolveOne fp pool st.rf }

/-- Per-cell resolution (sushichef.py lines 131-173): strip the raw cell
value, apply the 2D/3D token-list override, then fold the candidate loop
over the token list. -/
def resolveCell (tokens : List Str) (pool : List Str) (value : Str) : RowState :=
  let v := strip value
  let toks :=
    if occursB (strOf "(2D Anim)") v = true then [strOf "MGCB.2D.ANIM"]
    else if occursB (strOf "(3D Anim)") v = true then [strOf "MGCB.3D.ANIM"]
    else tokens
  toks.foldl (stepToken pool) { value := v, prefixes := [], rf := none }

/-- The TOPIC_FILENAME_PREFIXES table of sushichef.py lines 30-38. -/
def TOPIC_FILENAME_PREFIXES : List (Str × List Str) :=
  [(strOf "SH Videos", [strOf "SH.ANIM", strOf "SH.LIVE"]),
   (strOf "Mini Books", [strOf "Mini Book"]),
   (strOf "Activity Books", [strOf "Website.Activity Book"]),
   (strOf "Board Books", [strOf "Board Book"]),
   (strOf "MGCL/MGC Anim Videos", [strOf "MGC.ANIM", strOf "MGC.LIVE", strOf "MGC.LIVE.EPISODE"]),
   (strOf "PHL Videos", [strOf "PH.ANIM", strOf "PH.LIVE"]),
   (strOf "MGC ABC/Counting Videos",
     [strOf "MGC.ANIM", strOf "MGCB.2D.ANIM", strOf "MGCB.3D.ANIM", strOf "MGC.LIVE"])]

/-- Dictionary lookup in TOPIC_FILENAME_PREFIXES; a missing key raises
KeyError in the source, so the result is optional here. -/
def lookupTopic (ty : Str) : Option (List Str) :=
  (TOPIC_FILENAME_PREFIXES.find? (fun p => p.1 == ty)).map (fun p => p.2)

/-- One diagnostic line printed per cell: the success echo of line 180 or
the failure echo of line 183, with the data each carries. -/
inductive Diag where
  | added (title file : Str)
  | unable (prefixes : List Str)
deriving DecidableEq

/-- The observable output of the pass: the content_by_type mapping (an
insertion-ordered dictionary of lists) and the printed diagnostics. -/
structure ChefState where
  content : List (Str × List (Str × Str))
  diags : List Diag
deriving DecidableEq

/-- Append an entry under a category in content_by_type, creating the
category on first use (sushichef.py lines 177-181). -/
def addContent (cbt : List (Str × List (Str × Str))) (ty : Str) (e : Str × Str) :
    List (Str × List (Str × Str)) :=
  if cbt.any (fun p => p.1 == ty) then
    cbt.map (fun p => if p.1 == ty then (p.1, p.2 ++ [e]) else p)
  else cbt ++ [(ty, [e])]

/-- Process one non-empty cell (sushichef.py lines 130-183).  The
dictionary lookup happens first; a missing category aborts the pass
(modelled as an error carrying the output produced so far).  Otherwise
the cell resolves and either an entry plus a success diagnostic or a
failure diagnostic is produced.  The stored title is the stripped raw
cell value, bound before the candidate loop mutates the value variable. -/
def processCell (pool : List Str) (ty : Str) (value : Str) (st : ChefState) :
    Except (Str × ChefState) ChefState :=
  match lookupTopic ty with
  | none => Except.error (ty, st)
  | some toks =>
    let title := strip value
    let r := resolveCell toks pool value
    match r.rf with
    | some f =>
      Except.ok { content := addContent st.content ty (title, f),
                  diags := st.diags ++ [Diag.added title f] }
    | none =>
      Except.ok { content := st.content, diags := st.diags ++ [Diag.unable r.prefixes] }

/-- Process one data row (sushichef.py lines 122-183): walk the columns,
skipping columns with an empty header and empty cells; the header is
stripped to form the category key. -/
def processRow (pool : List Str) (header : List Str) (st : ChefState) (row : List Str) :
    Except (Str × ChefState) ChefState :=
  (header.zip row).foldlM
    (fun acc cell =>
      if cell.1.isEmpty then Except.ok acc
      else if cell.2.isEmpty then Except.ok acc
      else processCell pool (strip cell.1) cell.2 acc) st

/-- Process the whole spreadsheet body (sushichef.py lines 121-183) in
row-major order, starting from an empty output. -/
def processGrid (pool : List Str) (header : List Str) (rows : List (List Str)) :
    Except (Str × ChefState) ChefState :=
  rows.foldlM (processRow pool header) { content := [], diags := [] }

theorem replaceAllAux_not_occurs (pat rep : Str) :
    ∀ (n : Nat) (s : Str), occursB pat s = false → replaceAllAux pat rep n s = s := by
  intro n
  induction n with
  | zero => intro s _; rfl
  | succ n ih =>
    intro s h
    cases s with
    | nil => rfl
    | cons c rest =>
      have h1 : List.isPrefixOf pat (c :: rest) = false := by
        unfold occursB at h
        cases hp : List.isPrefixOf pat (c :: rest)
        · rfl
        · rw [hp] at h; simp at h
      have h2 : occursB pat rest = false := by
        unfold occursB at h
        rw [h1] at h
        simpa using h
      unfold replaceAllAux
      rw [if_neg]
      · rw [ih rest h2]
      · intro hc
        rw [h1] at hc
        exact Bool.false_ne_true hc.1

theorem replaceAll_not_occurs (pat rep s : Str) (h : occursB pat s = false) :
    replaceAll pat rep s = s :=
  replaceAllAux_not_occurs pat rep s.length s h

theorem dropTrailWS_cons (c : Char) (l : Str) :
    dropTrailWS (c :: l) = match dropTrailWS l with
      | [] => if isWS c = true then [] else [c]
      | r => c :: r := rfl

theorem dropTrailWS_idem : ∀ l : Str, dropTrailWS (dropTrailWS l) = dropTrailWS l := by
  intro l
  induction l with
  | nil => rfl
  | cons c rest ih =>
    cases h : dropTrailWS rest with
    | nil =>
      have hc : dropTrailWS (c :: rest) = if isWS c = true then [] else [c] := by
        rw [dropTrailWS_cons, h]
      by_cases hw : isWS c = true
      · rw [hc, if_pos hw]; rfl
      · rw [hc, if_neg hw, dropTrailWS_cons]
        simp [dropTrailWS, hw]
    | cons d t =>
      have ih2 : dropTrailWS (d :: t) = d :: t := by rw [← h, ih, h]
      have hc : dropTrailWS (c :: rest) = c :: d :: t := by
        rw [dropTrailWS_cons, h]
      rw [hc, dropTrailWS_cons, ih2]

theorem dropTrailWS_shape (c : Char) (rest : Str) :
    dropTrailWS (c :: rest) = [] ∨ ∃ t, dropTrailWS (c :: rest) = c :: t := by
  cases h : dropTrailWS rest with
  | nil =>
    by_cases hw : isWS c = true
    · left; simp [dropTrailWS, h, hw]
    · right; exact ⟨[], by simp [dropTrailWS, h, hw]⟩
  | cons d t => right; exact ⟨d :: t, by simp [dropTrailWS, h]⟩

theorem dropWhile_isWS_shape :
    ∀ l : Str, l.dropWhile isWS = [] ∨ ∃ c t, l.dropWhile isWS = c :: t ∧ isWS c = false := by
  intro l
  induction l with
  | nil => left; rfl
  | cons c rest ih =>
    by_cases hw : isWS c = true
    · rw [List.dropWhile_cons, if_pos hw]
      exact ih
    · rw [List.dropWhile_cons, if_neg hw]
      exact Or.inr ⟨c, rest, rfl, by simpa using hw⟩

theorem strip_idem (l : Str) : strip (strip l) = strip l := by
  unfold strip
  rcases dropWhile_isWS_shape l with h | ⟨c, t, h, hw⟩
  · rw [h]; rfl
  · rw [h]
    rcases dropTrailWS_shape c t with h2 | ⟨t2, h2⟩
    · rw [h2]; rfl
    · rw [h2, List.dropWhile_cons, if_neg (by simp [hw])]
      have h3 := dropTrailWS_idem (c :: t)
      rw [h2] at h3
      exact h3

theorem normalizeTitle_eq (t : Str) :
    normalizeTitle t = strip (replaceAll (strOf "(3D Anim)") []
      (strip (replaceAll (strOf "(2D Anim)") []
      (strip (replaceAll (strOf "(Live)") []
      (strip (replaceAll (strOf "(Anim)") [] t))))))) := by
  simp [normalizeTitle, markers, List.foldl_cons, List.foldl_nil]

theorem strip_normalizeTitle (t : Str) : strip (normalizeTitle t) = normalizeTitle t := by
  rw [normalizeTitle_eq]
  exact strip_idem _

theorem normalizeTitle_fixed (s : Str) (h : ∀ m ∈ markers, occursB m s = false)
    (hs : strip s = s) : normalizeTitle s = s := by
  have e1 : strip (replaceAll (strOf "(Anim)") [] s) = s := by
    rw [replaceAll_not_occurs _ _ _ (h _ (by simp [markers])), hs]
  have e2 : strip (replaceAll (strOf "(Live)") [] s) = s := by
    rw [replaceAll_not_occurs _ _ _ (h _ (by simp [markers])), hs]
  have e3 : strip (replaceAll (strOf "(2D Anim)") [] s) = s := by
    rw [replaceAll_not_occurs _ _ _ (h _ (by simp [markers])), hs]
  have e4 : strip (replaceAll (strOf "(3D Anim)") [] s) = s := by
    rw [replaceAll_not_occurs _ _ _ (h _ (by simp [markers])), hs]
  rw [normalizeTitle_eq, e1, e2, e3, e4]

/-- Claim C3, counterexample: the normalization pass of sushichef.py
lines 150-151 is not idempotent on every string; removing one occurrence
of the animation marker can create a new one, so a second pass removes
more.  At the concrete input "((Anim)Anim)" the first pass yields
"(Anim)" and the second pass yields the empty title. -/
theorem C3_cex :
    normalizeTitle (normalizeTitle (strOf "((Anim)Anim)")) ≠
      normalizeTitle (strOf "((Anim)Anim)") := by decide

/-- Claim C3 (amended): marker stripping is idempotent on every string
whose normalization contains no variant marker any more; on such strings
a second normalization pass changes nothing.  (The unrestricted claim
fails: see the counterexample, where removing a marker creates a new
marker occurrence that survives the first pass.) -/
theorem C3_amended (t : Str) (h : ∀ m ∈ markers, occursB m (normalizeTitle t) = false) :
    normalizeTitle (normalizeTitle t) = normalizeTitle t :=
  normalizeTitle_fixed (normalizeTitle t) h (strip_normalizeTitle t)

/-- Witness for C3_amended at the concrete title "Hello (Anim)". -/
theorem C3_amended_wit :
    (∀ m ∈ markers, occursB m (normalizeTitle (strOf "Hello (Anim)")) = false) ∧
    normalizeTitle (normalizeTitle (strOf "Hello (Anim)")) =
      normalizeTitle (strOf "Hello (Anim)") :=
  ⟨by decide, C3_amended _ (by decide)⟩

theorem selectShortest_cons (f0 : Str) (rest : List Str) (rf : Option Str) :
    selectShortest (f0 :: rest) rf = selectShortest rest (selectStep rf f0) := rfl

theorem pyFalsy_some_ne (g : Str) (hg : g ≠ []) : pyFalsy (some g) = false := by
  cases g with
  | nil => exact absurd rfl hg
  | cons c t => rfl

theorem selectStep_some_not_lt (g f : Str) (hg : g ≠ []) (hlt : ¬ f.length < g.length) :
    selectStep (some g) f = some g := by
  unfold selectStep
  rw [if_neg]
  intro h
  rcases h with h | h
  · rw [pyFalsy_some_ne g hg] at h
    exact Bool.false_ne_true h
  · exact hlt h

theorem select_mono : ∀ (found : List Str) (g : Str), g ≠ [] → (∀ f ∈ found, f ≠ []) →
    ∃ g2, selectShortest found (some g) = some g2 ∧ g2.length ≤ g.length ∧ g2 ≠ [] := by
  intro found
  induction found with
  | nil => intro g hg _; exact ⟨g, rfl, le_refl _, hg⟩
  | cons f0 rest ih =>
    intro g hg hne
    rw [selectShortest_cons]
    have hnerest : ∀ x ∈ rest, x ≠ [] := fun x hx => hne x (List.mem_cons_of_mem _ hx)
    by_cases hc : pyFalsy (some g) = true ∨ f0.length < ((some g).getD []).length
    · have hlt : f0.length < g.length := by
        rcases hc with h | h
        · rw [pyFalsy_some_ne g hg] at h; exact absurd h (by simp)
        · exact h
      by_cases hmv : movB f0 = true
      · have hs : selectStep (some g) f0 = some g := by
          unfold selectStep; rw [if_pos hc, if_pos hmv]
        rw [hs]
        exact ih g hg hnerest
      · have hs : selectStep (some g) f0 = some f0 := by
          unfold selectStep; rw [if_pos hc, if_neg hmv]
        rw [hs]
        have hf0 : f0 ≠ [] := hne f0 (List.mem_cons_self _ _)
        obtain ⟨g2, e, le, ne2⟩ := ih f0 hf0 hnerest
        exact ⟨g2, e, le_trans le (le_of_lt hlt), ne2⟩
    · have hs : selectStep (some g) f0 = some g := by
        unfold selectStep; rw [if_neg hc]
      rw [hs]
      exact ih g hg hnerest

theorem select_reach_some : ∀ (found : List Str) (g : Str), g ≠ [] →
    (∀ f ∈ found, f ≠ []) → ∀ f ∈ found, movB f = false →
    ∃ g2, selectShortest found (some g) = some g2 ∧ g2 ≠ [] ∧ g2.length ≤ f.length := by
  intro found
  induction found with
  | nil => intro g _ _ f hf; exact absurd hf (List.not_mem_nil f)
  | cons f0 rest ih =>
    intro g hg hne f hf hm
    rw [selectShortest_cons]
    have hnerest : ∀ x ∈ rest, x ≠ [] := fun x hx => hne x (List.mem_cons_of_mem _ hx)
    by_cases hc : pyFalsy (some g) = true ∨ f0.length < ((some g).getD []).length
    · have hlt : f0.length < g.length := by
        rcases hc with h | h
        · rw [pyFalsy_some_ne g hg] at h; exact absurd h (by simp)
        · exact h
      by_cases hmv : movB f0 = true
      · have hs : selectStep (some g) f0 = some g := by
          unfold selectStep; rw [if_pos hc, if_pos hmv]
        rw [hs]
        rcases List.mem_cons.mp hf with he | hr
        · rw [he] at hm; rw [hm] at hmv; exact absurd hmv (by simp)
        · exact ih g hg hnerest f hr hm
      · have hs : selectStep (some g) f0 = some f0 := by
          unfold selectStep; rw [if_pos hc, if_neg hmv]
        rw [hs]
        have hf0 : f0 ≠ [] := hne f0 (List.mem_cons_self _ _)
        rcases List.mem_cons.mp hf with he | hr
        · obtain ⟨g2, e, le, ne2⟩ := select_mono rest f0 hf0 hnerest
          exact ⟨g2, e, ne2, by rw [he]; exact le⟩
        · exact ih f0 hf0 hnerest f hr hm
    · have hnlt : ¬ f0.length < g.length := fun hl => hc (Or.inr hl)
      have hs : selectStep (some g) f0 = some g := by
        unfold selectStep; rw [if_neg hc]
      rw [hs]
      rcases List.mem_cons.mp hf with he | hr
      · obtain ⟨g2, e, le, ne2⟩ := select_mono rest g hg hnerest
        exact ⟨g2, e, ne2, by rw [he]; exact le_trans le (Nat.le_of_not_lt hnlt)⟩
      · exact ih g hg hnerest f hr hm

theorem select_reach_none : ∀ (found : List Str), (∀ f ∈ found, f ≠ []) →
    ∀ f ∈ found, movB f = false →
    ∃ g2, selectShortest found none = some g2 ∧ g2 ≠ [] ∧ g2.length ≤ f.length := by
  intro found
  induction found with
  | nil => intro _ f hf; exact absurd hf (List.not_mem_nil f)
  | cons f0 rest ih =>
    intro hne f hf hm
    rw [selectShortest_cons]
    have hc : pyFalsy (none : Option Str) = true ∨
        f0.length < ((none : Option Str).getD []).length := Or.inl rfl
    have hnerest : ∀ x ∈ rest, x ≠ [] := fun x hx => hne x (List.mem_cons_of_mem _ hx)
    by_cases hmv : movB f0 = true
    · have hs : selectStep none f0 = none := by
        unfold selectStep; rw [if_pos hc, if_pos hmv]
      rw [hs]
      rcases List.mem_cons.mp hf with he | hr
      · rw [he] at hm; rw [hm] at hmv; exact absurd hmv (by simp)
      · exact ih hnerest f hr hm
    · have hs : selectStep none f0 = some f0 := by
        unfold selectStep; rw [if_pos hc, if_neg hmv]
      rw [hs]
      have hf0 : f0 ≠ [] := hne f0 (List.mem_cons_self _ _)
      rcases List.mem_cons.mp hf with he | hr
      · obtain ⟨g2, e, le, ne2⟩ := select_mono rest f0 hf0 hnerest
        exact ⟨g2, e, ne2, by rw [he]; exact le⟩
      · exact select_reach_some rest f0 hf0 hnerest f hr hm

theorem select_mem : ∀ (found : List Str) (rf : Option Str),
    selectShortest found rf = rf ∨
    ∃ f, f ∈ found ∧ movB f = false ∧ selectShortest found rf = some f := by
  intro found
  induction found with
  | nil => intro rf; exact Or.inl rfl
  | cons f0 rest ih =>
    intro rf
    rw [selectShortest_cons]
    by_cases hc : pyFalsy rf = true ∨ f0.length < (rf.getD []).length
    · by_cases hmv : movB f0 = true
      · have hs : selectStep rf f0 = rf := by
          unfold selectStep; rw [if_pos hc, if_pos hmv]
        rw [hs]
        rcases ih rf with h | ⟨f, hf, hm, he⟩
        · exact Or.inl h
        · exact Or.inr ⟨f, List.mem_cons_of_mem _ hf, hm, he⟩
      · have hs : selectStep rf f0 = some f0 := by
          unfold selectStep; rw [if_pos hc, if_neg hmv]
        rw [hs]
        rcases ih (some f0) with h | ⟨f, hf, hm, he⟩
        · exact Or.inr ⟨f0, List.mem_cons_self _ _, by simpa using hmv, h⟩
        · exact Or.inr ⟨f, List.mem_cons_of_mem _ hf, hm, he⟩
    · have hs : selectStep rf f0 = rf := by
        unfold selectStep; rw [if_neg hc]
      rw [hs]
      rcases ih rf with h | ⟨f, hf, hm, he⟩
      · exact Or.inl h
      · exact Or.inr ⟨f, List.mem_cons_of_mem _ hf, hm, he⟩

/-- Claim C1, counterexample: for the title "Foo (Anim)" under the token
list of category SH Videos, the live token is NOT skipped, because the
animation marker has already been stripped from the working value when
the earlier animation token was processed; resolution returns the file
that matches the live-token candidate. -/
theorem C1_cex :
    occursB (strOf "(Anim)") (strOf "Foo (Anim)") = true ∧
    occursB (strOf "LIVE") (strOf "SH.LIVE") = true ∧
    (resolveCell [strOf "SH.ANIM", strOf "SH.LIVE"] [strOf "SH.LIVE.Foo.mp4"]
        (strOf "Foo (Anim)")).rf = some (strOf "SH.LIVE.Foo.mp4") ∧
    directMatch (strOf "SH.LIVE.Foo.") (strOf "SH.LIVE.Foo.mp4") = true ∧
    (strOf "SH.LIVE.Foo.") ∈ (resolveCell [strOf "SH.ANIM", strOf "SH.LIVE"]
        [strOf "SH.LIVE.Foo.mp4"] (strOf "Foo (Anim)")).prefixes := by
  decide

/-- Claim C1 (amended): a live-variant token is skipped whenever the
working title still contains the animation marker at the moment the
token is examined, and symmetrically an animation token is skipped while
the working title still contains the live marker.  Because the markers
are removed from the working title when the first surviving token is
processed, tokens examined afterwards are no longer skipped, so the
unrestricted claim fails (see the counterexample). -/
theorem C1_amended : ∀ (pool : List Str) (st : RowState) (tok : Str),
    (occursB (strOf "(Anim)") st.value = true → occursB (strOf "LIVE") tok = true →
      stepToken pool st tok = st) ∧
    (occursB (strOf "(Live)") st.value = true → occursB (strOf "ANIM") tok = true →
      stepToken pool st tok = st) := by
  intro pool st tok
  constructor
  · intro h1 h2
    unfold stepToken
    rw [if_pos ⟨h1, h2⟩]
  · intro h1 h2
    unfold stepToken
    by_cases hc : occursB (strOf "(Anim)") st.value = true ∧ occursB (strOf "LIVE") tok = true
    · rw [if_pos hc]
    · rw [if_neg hc, if_pos ⟨h1, h2⟩]

/-- Witness for C1_amended at a concrete state and token. -/
theorem C1_amended_wit :
    stepToken [] { value := strOf "X (Anim)", prefixes := [], rf := none } (strOf "SH.LIVE") =
      { value := strOf "X (Anim)", prefixes := [], rf := none } :=
  (C1_amended [] { value := strOf "X (Anim)", prefixes := [], rf := none }
    (strOf "SH.LIVE")).1 (by decide) (by decide)

/-- Claim C6, counterexample: the fallback-substitution path overwrites
the best-match accumulator unconditionally, so the resolved file for the
row can be longer than another eligible direct match: with candidates
from tokens SH.ANIM and SH.LIVE for title "A, B", the short file is an
eligible direct match of the first candidate, yet the returned file is
the longer fallback match of the second candidate. -/
theorem C6_cex :
    (resolveCell [strOf "SH.ANIM", strOf "SH.LIVE"]
        [strOf "SH.ANIM.A, B.mp4", strOf "SH.LIVE.A B.looooong.mp4"] (strOf "A, B")).rf =
      some (strOf "SH.LIVE.A B.looooong.mp4") ∧
    directMatch (strOf "SH.ANIM.A, B.") (strOf "SH.ANIM.A, B.mp4") = true ∧
    movB (strOf "SH.ANIM.A, B.mp4") = false ∧
    (strOf "SH.ANIM.A, B.") ∈ (resolveCell [strOf "SH.ANIM", strOf "SH.LIVE"]
        [strOf "SH.ANIM.A, B.mp4", strOf "SH.LIVE.A B.looooong.mp4"] (strOf "A, B")).prefixes ∧
    (strOf "SH.ANIM.A, B.mp4").length < (strOf "SH.LIVE.A B.looooong.mp4").length := by
  decide

/-- Claim C6 (amended): only the direct-match selection loop obeys the
strictly-shorter replacement rule; starting from a non-empty accumulator
it either keeps the accumulator or replaces it by a strictly shorter
filename.  The fallback-substitution path overwrites the accumulator
unconditionally, so the returned file can be longer than another
eligible direct match found for the row (see the counterexample). -/
theorem C6_amended : ∀ (found : List Str) (g : Str), g ≠ [] → (∀ f ∈ found, f ≠ []) →
    selectShortest found (some g) = some g ∨
    ∃ f, selectShortest found (some g) = some f ∧ f.length < g.length := by
  intro found
  induction found with
  | nil => intro g hg hne; exact Or.inl rfl
  | cons f0 rest ih =>
    intro g hg hne
    rw [selectShortest_cons]
    have hnerest : ∀ x ∈ rest, x ≠ [] := fun x hx => hne x (List.mem_cons_of_mem _ hx)
    by_cases hc : pyFalsy (some g) = true ∨ f0.length < ((some g).getD []).length
    · have hlt : f0.length < g.length := by
        rcases hc with h | h
        · rw [pyFalsy_some_ne g hg] at h; exact absurd h (by simp)
        · exact h
      by_cases hmv : movB f0 = true
      · have hs : selectStep (some g) f0 = some g := by
          unfold selectStep; rw [if_pos hc, if_pos hmv]
        rw [hs]
        exact ih g hg hnerest
      · have hs : selectStep (some g) f0 = some f0 := by
          unfold selectStep; rw [if_pos hc, if_neg hmv]
        rw [hs]
        have hf0 : f0 ≠ [] := hne f0 (List.mem_cons_self _ _)
        obtain ⟨g2, e, le, _⟩ := select_mono rest f0 hf0 hnerest
        exact Or.inr ⟨g2, e, lt_of_le_of_lt le hlt⟩
    · have hs : selectStep (some g) f0 = some g := by
        unfold selectStep; rw [if_neg hc]
      rw [hs]
      exact ih g hg hnerest

/-- Witness for C6_amended at a concrete accumulator and found list. -/
theorem C6_amended_wit :
    selectShortest [strOf "z.pdf"] (some (strOf "ab")) = some (strOf "ab") ∨
    ∃ f, selectShortest [strOf "z.pdf"] (some (strOf "ab")) = some f ∧
      f.length < (strOf "ab").length :=
  C6_amended [strOf "z.pdf"] (strOf "ab") (by decide) (by decide)

/-- Claim C7: among the direct matches collected for a candidate, the
found_files loop (started, as for a fresh row, from an empty
accumulator) skips filenames with the .mov extension and returns an
eligible match of minimal length; and in the concrete Board Books
scenario with the two Three Little Kittens files the shorter file is
resolved. -/
theorem C7_thm : ∀ (found : List Str), (∀ f ∈ found, f ≠ []) →
    (∃ f, f ∈ found ∧ movB f = false) →
    (∃ g, selectShortest found none = some g ∧ g ∈ found ∧ movB g = false ∧
      ∀ f ∈ found, movB f = false → g.length ≤ f.length) ∧
    (resolveCell [strOf "Board Book"]
        [strOf "Board Book.Three Little Kittens.pdf",
         strOf "Board Book.Three Little Kittens.Extra.pdf"]
        (strOf "Three Little Kittens")).rf =
      some (strOf "Board Book.Three Little Kittens.pdf") := by
  intro found hne hex
  refine ⟨?_, by decide⟩
  obtain ⟨f0, hf0, hm0⟩ := hex
  obtain ⟨g, hg, gne, hle⟩ := select_reach_none found hne f0 hf0 hm0
  rcases select_mem found none with h | ⟨f2, hf2, hm2, he2⟩
  · rw [h] at hg; exact absurd hg (by simp)
  · have hfg : f2 = g := by rw [he2] at hg; exact Option.some.inj hg
    refine ⟨f2, he2, hf2, hm2, ?_⟩
    intro f hf hm
    obtain ⟨g2, hg2, _, hle2⟩ := select_reach_none found hne f hf hm
    have he3 : f2 = g2 := by rw [he2] at hg2; exact Option.some.inj hg2
    rw [he3]
    exact hle2

/-- Witness for C7 at a concrete found list containing a .mov file. -/
theorem C7_wit :
    (∃ g, selectShortest [strOf "a.mov", strOf "bc.pdf"] none = some g ∧
      g ∈ [strOf "a.mov", strOf "bc.pdf"] ∧ movB g = false ∧
      ∀ f ∈ [strOf "a.mov", strOf "bc.pdf"], movB f = false → g.length ≤ f.length) ∧
    (resolveCell [strOf "Board Book"]
        [strOf "Board Book.Three Little Kittens.pdf",
         strOf "Board Book.Three Little Kittens.Extra.pdf"]
        (strOf "Three Little Kittens")).rf =
      some (strOf "Board Book.Three Little Kittens.pdf") :=
  C7_thm [strOf "a.mov", strOf "bc.pdf"] (by decide)
    ⟨strOf "bc.pdf", by decide, by decide⟩

/-- Claim C9: the direct-match selection loop never newly selects a
filename with the .mov extension: if its result is a .mov filename, that
filename was already the incoming accumulator (which only the fallback
path can have set); and concretely a .mov filename does become the
resolved file of a row through the fallback-substitution path. -/
theorem C9_thm :
    (∀ (found : List Str) (rf : Option Str) (f : Str),
      selectShortest found rf = some f → movB f = true → rf = some f) ∧
    ((resolveCell [strOf "SH.ANIM"] [strOf "SH.ANIM.A B.mov"] (strOf "A, B")).rf =
        some (strOf "SH.ANIM.A B.mov") ∧
      movB (strOf "SH.ANIM.A B.mov") = true ∧
      directMatch (strOf "SH.ANIM.A, B.") (strOf "SH.ANIM.A B.mov") = false ∧
      fallbackMatch (strOf "SH.ANIM.A, B.") (strOf "SH.ANIM.A B.mov") = true) := by
  constructor
  · intro found rf f he hm
    rcases select_mem found rf with h | ⟨f2, _, hm2, he2⟩
    · rw [h] at he; exact he
    · have hf : f2 = f := by rw [he2] at he; exact Option.some.inj he
      rw [hf] at hm2
      rw [hm2] at hm
      exact absurd hm (by simp)
  · exact ⟨by decide, by decide, by decide, by decide⟩

/-- Witness for C9 applying the universal part at a concrete input. -/
theorem C9_wit : (some (strOf "x.mov") : Option Str) = some (strOf "x.mov") :=
  C9_thm.1 [strOf "aaaaaa.pdf"] (some (strOf "x.mov")) (strOf "x.mov")
    (by decide) (by decide)

/-- Claim C10: the selection step keeps the current best match when the
new direct match has the same length (replacement requires strictly
fewer characters), so equal-length ties go to the file encountered
earlier in the pool enumeration; consequently the resolved file for an
equal-length tie depends on the order of the directory listing, as the
two concrete runs with the pool reversed show. -/
theorem C10_thm :
    (∀ (g f : Str), g ≠ [] → f.length = g.length → selectStep (some g) f = some g) ∧
    (resolveCell [strOf "Board Book"]
        [strOf "Board Book.T.a.pdf", strOf "Board Book.T.b.pdf"] (strOf "T")).rf =
      some (strOf "Board Book.T.a.pdf") ∧
    (resolveCell [strOf "Board Book"]
        [strOf "Board Book.T.b.pdf", strOf "Board Book.T.a.pdf"] (strOf "T")).rf =
      some (strOf "Board Book.T.b.pdf") := by
  refine ⟨?_, by decide, by decide⟩
  intro g f hg he
  exact selectStep_some_not_lt g f hg (by rw [he]; exact Nat.lt_irrefl _)

/-- Witness for C10 applying the tie-keeping part at a concrete input. -/
theorem C10_wit : selectStep (some (strOf "aa")) (strOf "bb") = some (strOf "aa") :=
  C10_thm.1 (strOf "aa") (strOf "bb") (by decide) (by decide)

theorem scan_found : ∀ (pool : List Str) (fp : Str) (acc : List Str × Option Str),
    (List.foldl (scanStep fp) acc pool).1 = acc.1 ++ pool.filter (directMatch fp) := by
  intro pool
  induction pool with
  | nil => intro fp acc; simp
  | cons r0 rest ih =>
    intro fp acc
    rw [List.foldl_cons, List.filter_cons]
    by_cases hd : directMatch fp r0 = true
    · rw [if_pos hd]
      have hs : scanStep fp acc r0 = (acc.1 ++ [r0], acc.2) := by
        unfold scanStep; rw [if_pos hd]
      rw [hs, ih]
      simp
    · rw [if_neg hd]
      by_cases hf : fallbackMatch fp r0 = true
      · have hs : scanStep fp acc r0 = (acc.1, some r0) := by
          unfold scanStep; rw [if_neg hd, if_pos hf]
        rw [hs, ih]
      · have hs : scanStep fp acc r0 = acc := by
          unfold scanStep; rw [if_neg hd, if_neg hf]
        rw [hs, ih]

theorem scan_rf : ∀ (pool : List Str) (fp : Str) (acc : List Str × Option Str),
    (∀ x ∈ pool, directMatch fp x = false → fallbackMatch fp x = false) →
    (List.foldl (scanStep fp) acc pool).2 = acc.2 := by
  intro pool
  induction pool with
  | nil => intro fp acc _; rfl
  | cons r0 rest ih =>
    intro fp acc h
    rw [List.foldl_cons]
    have hrest : ∀ x ∈ rest, directMatch fp x = false → fallbackMatch fp x = false :=
      fun x hx => h x (List.mem_cons_of_mem _ hx)
    by_cases hd : directMatch fp r0 = true
    · have hs : scanStep fp acc r0 = (acc.1 ++ [r0], acc.2) := by
        unfold scanStep; rw [if_pos hd]
      rw [hs, ih _ _ hrest]
    · have hdf : directMatch fp r0 = false := by simpa using hd
      have hfb : fallbackMatch fp r0 = false := h r0 (List.mem_cons_self _ _) hdf
      have hs : scanStep fp acc r0 = acc := by
        unfold scanStep; rw [if_neg hd, if_neg (by simp [hfb])]
      rw [hs, ih _ _ hrest]

/-- Claim C5, counterexample: exactly one pool filename starts with the
candidate prefix with exact case, yet resolution returns the other,
shorter filename that matches only case-insensitively. -/
theorem C5_cex :
    List.filter (fun x => List.isPrefixOf (strOf "Board Book.T.") x)
        [strOf "Board Book.T.x.pdf", strOf "board book.t.pdf"] =
      [strOf "Board Book.T.x.pdf"] ∧
    (resolveCell [strOf "Board Book"]
        [strOf "Board Book.T.x.pdf", strOf "board book.t.pdf"] (strOf "T")).rf =
      some (strOf "board book.t.pdf") ∧
    strOf "board book.t.pdf" ≠ strOf "Board Book.T.x.pdf" := by
  decide

/-- Claim C5 (amended): when exactly one pool filename matches the
candidate prefix case-insensitively, that filename does not carry the
.mov extension, and no non-matching pool filename matches a
substitution variant of the candidate, then resolution of that single
candidate returns that filename; determinism is definitional, since the
embedded resolver is a pure function of its inputs.  (Case-exact
uniqueness is not enough: matching is case-insensitive and the shorter
match wins, see the counterexample.) -/
theorem C5_amended : ∀ (fp : Str) (pool : List Str) (r : Str),
    pool.filter (directMatch fp) = [r] →
    movB r = false →
    (∀ x ∈ pool, directMatch fp x = false → fallbackMatch fp x = false) →
    resolveOne fp pool none = some r := by
  intro fp pool r hu hm hf
  show selectShortest (List.foldl (scanStep fp) ([], none) pool).1
      (List.foldl (scanStep fp) ([], none) pool).2 = some r
  have h1 : (List.foldl (scanStep fp) (([] : List Str), (none : Option Str)) pool).1 = [r] := by
    rw [scan_found]; simpa using hu
  have h2 : (List.foldl (scanStep fp) (([] : List Str), (none : Option Str)) pool).2 = none :=
    scan_rf pool fp ([], none) hf
  rw [h1, h2, selectShortest_cons]
  have hs : selectStep none r = some r := by
    unfold selectStep
    simp [pyFalsy, hm]
  rw [hs]
  rfl

/-- Witness for C5_amended at a concrete candidate and pool. -/
theorem C5_amended_wit :
    resolveOne (strOf "Board Book.T.") [strOf "Board Book.T.x.pdf"] none =
      some (strOf "Board Book.T.x.pdf") :=
  C5_amended (strOf "Board Book.T.") [strOf "Board Book.T.x.pdf"]
    (strOf "Board Book.T.x.pdf") (by decide) (by decide) (by decide)

/-- Claim C2, counterexample: the title stored in the output entry is the
raw (whitespace-trimmed) cell value with the variant marker still
present, not the normalized title: for raw title
"Numbers Song (3D Anim)" the stored title is "Numbers Song (3D Anim)",
not "Numbers Song". -/
theorem C2_cex :
    processCell [strOf "MGCB.3D.ANIM.Numbers Song.mp4"] (strOf "MGC ABC/Counting Videos")
        (strOf "Numbers Song (3D Anim)") { content := [], diags := [] } =
      Except.ok
        { content := [(strOf "MGC ABC/Counting Videos",
            [(strOf "Numbers Song (3D Anim)", strOf "MGCB.3D.ANIM.Numbers Song.mp4")])],
          diags := [Diag.added (strOf "Numbers Song (3D Anim)")
            (strOf "MGCB.3D.ANIM.Numbers Song.mp4")] } ∧
    strOf "Numbers Song (3D Anim)" ≠ strOf "Numbers Song" :=
  ⟨rfl, by decide⟩

/-- Claim C2 (amended): the title stored in the output entry is the raw
cell value with surrounding whitespace trimmed and the variant markers
retained; the marker-stripped normalized title is used only to build the
candidate prefixes (for raw title "Numbers Song (3D Anim)" the single
candidate is built from the 3-D token and the normalized title
"Numbers Song"). -/
theorem C2_amended : ∀ (pool : List Str) (ty v : Str) (st : ChefState)
    (toks : List Str) (f : Str),
    lookupTopic ty = some toks →
    (resolveCell toks pool v).rf = some f →
    processCell pool ty v st =
      Except.ok { content := addContent st.content ty (strip v, f),
                  diags := st.diags ++ [Diag.added (strip v) f] } ∧
    (resolveCell [strOf "MGC.ANIM", strOf "MGCB.2D.ANIM", strOf "MGCB.3D.ANIM",
        strOf "MGC.LIVE"] [strOf "MGCB.3D.ANIM.Numbers Song.mp4"]
        (strOf "Numbers Song (3D Anim)")).prefixes =
      [strOf "MGCB.3D.ANIM.Numbers Song."] := by
  intro pool ty v st toks f h1 h2
  constructor
  · simp [processCell, h1, h2]
  · decide

/-- Witness for C2_amended at the concrete scenario of the claim. -/
theorem C2_amended_wit :
    processCell [strOf "MGCB.3D.ANIM.Numbers Song.mp4"] (strOf "MGC ABC/Counting Videos")
        (strOf "Numbers Song (3D Anim)") { content := [], diags := [] } =
      Except.ok
        { content := addContent [] (strOf "MGC ABC/Counting Videos")
            (strip (strOf "Numbers Song (3D Anim)"), strOf "MGCB.3D.ANIM.Numbers Song.mp4"),
          diags := [] ++ [Diag.added (strip (strOf "Numbers Song (3D Anim)"))
            (strOf "MGCB.3D.ANIM.Numbers Song.mp4")] } ∧
    (resolveCell [strOf "MGC.ANIM", strOf "MGCB.2D.ANIM", strOf "MGCB.3D.ANIM",
        strOf "MGC.LIVE"] [strOf "MGCB.3D.ANIM.Numbers Song.mp4"]
        (strOf "Numbers Song (3D Anim)")).prefixes =
      [strOf "MGCB.3D.ANIM.Numbers Song."] :=
  C2_amended [strOf "MGCB.3D.ANIM.Numbers Song.mp4"] (strOf "MGC ABC/Counting Videos")
    (strOf "Numbers Song (3D Anim)") { content := [], diags := [] }
    [strOf "MGC.ANIM", strOf "MGCB.2D.ANIM", strOf "MGCB.3D.ANIM", strOf "MGC.LIVE"]
    (strOf "MGCB.3D.ANIM.Numbers Song.mp4") (by decide) (by decide)

/-- Claim C4, counterexample: with the unconfigured category in the
second column, the pass aborts only when the unconfigured cell is
reached, and by then the first column's cell has already produced an
entry and a diagnostic, contradicting that the abort precedes all
output. -/
theorem C4_cex :
    processGrid [strOf "Board Book.Three Little Kittens.pdf"]
        [strOf "Board Books", strOf "Unknown"]
        [[strOf "Three Little Kittens", strOf "X"]] =
      Except.error (strOf "Unknown",
        { content := [(strOf "Board Books",
            [(strOf "Three Little Kittens", strOf "Board Book.Three Little Kittens.pdf")])],
          diags := [Diag.added (strOf "Three Little Kittens")
            (strOf "Board Book.Three Little Kittens.pdf")] }) ∧
    [Diag.added (strOf "Three Little Kittens")
        (strOf "Board Book.Three Little Kittens.pdf")] ≠ ([] : List Diag) :=
  ⟨rfl, by decide⟩

/-- Claim C4 (amended): the reconciliation pass aborts with a
configuration error when the first non-empty cell of the unconfigured
category is processed; nothing is produced for that cell or any later
cell, but the entries and diagnostics of cells processed earlier in the
row-major traversal have already been produced.  When the unconfigured
column comes first, the abort indeed precedes all output. -/
theorem C4_amended :
    (∀ (pool : List Str) (ty v : Str) (st : ChefState),
      lookupTopic ty = none → processCell pool ty v st = Except.error (ty, st)) ∧
    processGrid [strOf "Board Book.Three Little Kittens.pdf"]
        [strOf "Unknown", strOf "Board Books"]
        [[strOf "X", strOf "Three Little Kittens"]] =
      Except.error (strOf "Unknown", { content := [], diags := [] }) := by
  constructor
  · intro pool ty v st h
    simp [processCell, h]
  · rfl

/-- Witness for C4_amended applying the universal part concretely. -/
theorem C4_amended_wit :
    processCell [] (strOf "Unknown") (strOf "X") { content := [], diags := [] } =
      Except.error (strOf "Unknown", { content := [], diags := [] }) :=
  C4_amended.1 [] (strOf "Unknown") (strOf "X") { content := [], diags := [] } (by decide)

/-- Claim C8: an unresolved row is non-fatal: for a configured category
whose resolution finds no file, the cell produces no entry, appends a
diagnostic carrying the attempted candidate prefixes, and returns
successfully so the pass continues; concretely, a grid with a resolvable
row and an unresolvable row yields output for the resolvable row plus
the diagnostic for the other. -/
theorem C8_thm :
    (∀ (pool : List Str) (ty v : Str) (st : ChefState) (toks : List Str),
      lookupTopic ty = some toks →
      (resolveCell toks pool v).rf = none →
      processCell pool ty v st = Except.ok
        { content := st.content,
          diags := st.diags ++ [Diag.unable (resolveCell toks pool v).prefixes] }) ∧
    processGrid [strOf "Board Book.Three Little Kittens.pdf"] [strOf "Board Books"]
        [[strOf "Three Little Kittens"], [strOf "Nonexistent"]] =
      Except.ok
        { content := [(strOf "Board Books",
            [(strOf "Three Little Kittens", strOf "Board Book.Three Little Kittens.pdf")])],
          diags := [Diag.added (strOf "Three Little Kittens")
              (strOf "Board Book.Three Little Kittens.pdf"),
            Diag.unable [strOf "Board Book.Nonexistent."]] } := by
  constructor
  · intro pool ty v st toks h1 h2
    simp [processCell, h1, h2]
  · rfl

/-- Witness for C8 applying the universal part at a concrete cell. -/
theorem C8_wit :
    processCell [strOf "Board Book.Three Little Kittens.pdf"] (strOf "Board Books")
        (strOf "Nonexistent") { content := [], diags := [] } =
      Except.ok
        { content := [],
          diags := [] ++ [Diag.unable (resolveCell [strOf "Board Book"]
            [strOf "Board Book.Three Little Kittens.pdf"] (strOf "Nonexistent")).prefixes] } :=
  C8_thm.1 [strOf "Board Book.Three Little Kittens.pdf"] (strOf "Board Books")
    (strOf "Nonexistent") { content := [], diags := [] } [strOf "Board Book"]
    (by decide) (by decide)
